import Mathlib

/-!
Shallow embedding of the LINE-bot webhook state machine in `app.py`
(repository Arrozex/line-bot-backend), together with theorems settling the
spec claims.

Modelling conventions:
* `Time` is minutes after midnight (`datetime.time`), `Dte` is an ordinal day
  number (`datetime.date`); both are `Nat`, which preserves all comparisons
  the code performs.
* The SQLAlchemy session is modelled as an explicit `Store` of lists; primary
  keys are `Nat`.  `db.session.commit` becomes pure replacement of a row.
* Python falsiness (`x or d`) is embedded faithfully: `0`, `""`,
  `time(0,0)` and `None` are falsy.
* Operations that can raise in Python (`days_map[c.weekday]` with an
  out-of-range index, `e.course` on a dangling enrollment) return `Option`;
  the handler propagates `none` to model an exception.
-/

namespace LineBot

/-- `users` table row (`class User`, app.py lines 34-45). -/
structure UserR where
  id : Nat
  line_user_id : Option String
  email : String
  name : Option String
  identity : Option String
  status : String
deriving DecidableEq

/-- `courses` table row (`class Course`, app.py lines 47-56). -/
structure CourseR where
  id : Nat
  course_name : String
  weekday : Option Nat
  start_time : Option Nat
  end_date : Option Nat
deriving DecidableEq

/-- `enrollments` table row (`class Enrollment`, app.py lines 58-63). -/
structure EnrollmentR where
  id : Nat
  user_email : String
  course_id : Nat
deriving DecidableEq

/-- The persistent entity store (the three relational tables). -/
structure Store where
  users : List UserR
  courses : List CourseR
  enrollments : List EnrollmentR
deriving DecidableEq

/-- An outbound reply: text plus quick-reply button labels (empty for a plain
`TextSendMessage`). -/
structure Reply where
  text : String
  buttons : List String
deriving DecidableEq

/-! ## Store operations (SQLAlchemy queries and commits) -/

/-- `User.query.filter_by(line_user_id=line_id).first()`. -/
def findByLineId (s : Store) (lid : String) : Option UserR :=
  s.users.find? fun u => u.line_user_id == some lid

/-- `User.query.filter_by(email=msg).first()`. -/
def findByEmail (s : Store) (em : String) : Option UserR :=
  s.users.find? fun u => u.email == em

/-- Committing a field update on a fetched row: replace the first row with the
same primary key. -/
def updateById (u : UserR) : List UserR → List UserR
  | [] => []
  | v :: rest => if v.id = u.id then u :: rest else v :: updateById u rest

/-- `db.session.delete(user)`: remove the row with the given primary key. -/
def deleteById (i : Nat) : List UserR → List UserR
  | [] => []
  | v :: rest => if v.id = i then rest else v :: deleteById i rest

def setUser (s : Store) (u : UserR) : Store :=
  { s with users := updateById u s.users }

def delUser (s : Store) (i : Nat) : Store :=
  { s with users := deleteById i s.users }

/-- `db.session.add(user)` with an autoincrement primary key. -/
def addUser (s : Store) (u : UserR) : Store :=
  { s with users := s.users ++ [u] }

/-- Autoincrement: strictly greater than every existing id. -/
def freshId (s : Store) : Nat :=
  s.users.foldr (fun u m => max (u.id + 1) m) 0

/-- `f"{line_id}@temp"`. -/
def placeholderEmail (lid : String) : String := lid ++ "@temp"

/-- Python `c in s` for a single-character needle, via the character list
of the string. -/
def strContainsChar (s : String) (c : Char) : Bool := s.data.contains c

/-- Python `s.endswith(t)`, via the character lists. -/
def strEndsWith (s t : String) : Bool := t.data.isSuffixOf s.data

/-! ## Rendering helpers -/

def days_map : List String := ["一", "二", "三", "四", "五", "六", "日"]

def pad2 (n : Nat) : String :=
  if n < 10 then "0" ++ toString n else toString n

/-- `t.strftime('%H:%M')` on a time measured in minutes after midnight. -/
def fmtTime (t : Nat) : String := pad2 (t / 60) ++ ":" ++ pad2 (t % 60)

/-- `days_map[c.weekday] if c.weekday is not None else "待定"`; list indexing
raises (`none`) when the index is out of range. -/
def dayLabel (w : Option Nat) : Option String :=
  match w with
  | none => some "待定"
  | some i => days_map.get? i

/-- `c.start_time.strftime('%H:%M') if c.start_time else "待定"`.
A stored time of 00:00 is falsy in Python, but it formats to "00:00" either
way, so the branch on falsiness versus `None` coincides with this match. -/
def timeLabel (t : Option Nat) : String :=
  match t with
  | none => "待定"
  | some t => fmtTime t

/-- `user.name or '未設定'`: `None` and the empty string are both falsy. -/
def pyOrStr (o : Option String) (d : String) : String :=
  match o with
  | none => d
  | some s => if s = "" then d else s

/-- `x.weekday or 999`: Python `or` treats the integer `0` as falsy, so a
Monday (= 0) weekday also yields 999, exactly like `None`. -/
def weekdayOr999 (o : Option Nat) : Nat :=
  match o with
  | none => 999
  | some v => if v = 0 then 999 else v

/-- `x.start_time or datetime.min.time()`: `None` becomes midnight, and a
stored midnight is falsy but is replaced by midnight again, so this is
`getD 0`. -/
def startTimeOrMin (o : Option Nat) : Nat := o.getD 0

/-- Lexicographic `≤` on pairs, matching Python tuple comparison. -/
def le2 (p q : Nat × Nat) : Bool :=
  decide (p.1 < q.1 ∨ (p.1 = q.1 ∧ p.2 ≤ q.2))

/-- Strict lexicographic `<` on pairs. -/
def lt2 (p q : Nat × Nat) : Bool :=
  decide (p.1 < q.1 ∨ (p.1 = q.1 ∧ p.2 < q.2))

/-- Sort key of `all_courses.sort(key=lambda x: (x.weekday or 999,
x.start_time or datetime.min.time()))` (app.py line 266). -/
def pyEnrollKey (c : CourseR) : Nat × Nat :=
  (weekdayOr999 c.weekday, startTimeOrMin c.start_time)

def enrollLe (c d : CourseR) : Bool :=
  le2 (pyEnrollKey c) (pyEnrollKey d)

/-- PostgreSQL `ORDER BY` key for a nullable column, ascending: non-null
values in order, NULLs last. -/
def nullsLastKey (o : Option Nat) : Nat × Nat :=
  match o with
  | none => (1, 0)
  | some v => (0, v)

/-- `ORDER BY courses.weekday, courses.start_time` (app.py line 223). -/
def courseLe (c d : CourseR) : Bool :=
  lt2 (nullsLastKey c.weekday) (nullsLastKey d.weekday) ||
    (nullsLastKey c.weekday == nullsLastKey d.weekday &&
      le2 (nullsLastKey c.start_time) (nullsLastKey d.start_time))

/-! ## Reply text constants (app.py literals) -/

def alreadyBoundReply : String := "您已經綁定過了喔！若要修改資料請輸入「修改資料」。"

def welcomePrompt : String := "👋 歡迎使用！請問您是否為「護理相關人員」或「本計畫學員」？"

def identityButtons : List String := ["是的，我是", "我只是路過的"]

def askEmailReply : String :=
  "太好了！🎉\n\n接下來請輸入您的 「Email」 以進行綁定：\n(我們將會寄送課程資訊給您)"

def optOutReply : String := "沒問題！您依舊可以透過「近期課程」指令了解最新課程資訊哦。😊"

def pressButtonPrompt : String := "請點選下方的按鈕來確認您的身分喔！👇"

def emailTakenReply : String := "這個 Email 已經有人使用囉！請換一個。"

def askNameReply : String := "收到！📧\n接下來，請輸入您於報名系統填入的 「真實姓名」："

def badEmailReply : String := "Email 格式看起來不太對喔，請再檢查一下"

def helloNameReply (msg : String) : String :=
  "你好，" ++ msg ++ "！\n最後一步，請輸入您的 「服務單位」 或 「科系」："

def bindDoneReply : String :=
  "🎉 恭喜！綁定完成！\n\n您可以輸入指令，開始使用以下功能：1.「近期課表」2.「已選課程」3.「我的資料」"

def noCoursesReply : String := "目前沒有即將進行的課程喔！😅"

def calendarLink : String := "https://calendar.google.com/..."

def pleaseBindReply : String := "歡迎！請先輸入「綁定資料」來註冊您的帳號。"

def noEnrollReply : String := "您目前還沒有選修任何課程喔！📚"

def helpReply : String := "指令清單：1.「近期課程」2.「已選課程」3.「我的資料」"

def fallbackReply : String := "您可以輸入「幫助」查看可使用的指令哦！"

def profileReply (u : UserR) : String :=
  "您的綁定資料：\n\n姓名: " ++ pyOrStr u.name "未設定" ++
    "\nEmail: " ++ u.email ++ "\n身分: " ++ pyOrStr u.identity "未設定"

/-! ## The "近期課程" (recent courses) branch, app.py lines 218-242 -/

/-- `(Course.end_date >= today) | (Course.end_date == None)`. -/
def isUpcoming (today : Nat) (c : CourseR) : Bool :=
  match c.end_date with
  | none => true
  | some d => today ≤ d

/-- The filtered, ordered query result for the recent-courses listing. -/
def upcomingCourses (s : Store) (today : Nat) : List CourseR :=
  (s.courses.filter (isUpcoming today)).mergeSort courseLe

/-- Run a fallible renderer over each list element, propagating the first
failure (the Python loop raises out of the whole handler). -/
def optionMapList {α β : Type} (f : α → Option β) : List α → Option (List β)
  | [] => some []
  | x :: xs =>
    match f x with
    | none => none
    | some y =>
      match optionMapList f xs with
      | none => none
      | some ys => some (y :: ys)

/-- One course entry of the recent-courses listing (loop body, app.py lines
231-239); `none` models the IndexError on a weekday outside 0..6. -/
def renderCourseLine (c : CourseR) : Option String :=
  match dayLabel c.weekday with
  | none => none
  | some d =>
    some ("🔹 " ++ c.course_name ++ "\n   (週" ++ d ++ " " ++
      timeLabel c.start_time ++ ")\n" ++
      (match c.end_date with
       | none => ""
       | some e => "   ~ 至 " ++ toString e ++ " 截止\n"))

/-- The full recent-courses reply text. -/
def renderRecent (cs : List CourseR) : Option String :=
  if cs.isEmpty then some noCoursesReply
  else
    match optionMapList renderCourseLine cs with
    | none => none
    | some lines =>
      some ("📋 近期課程一覽：\n----------------------\n" ++
        String.join lines ++ "\n📅 查看完整行事曆：\n" ++ calendarLink)

/-! ## The "已選課程" (my enrollments) branch, app.py lines 259-281 -/

/-- `[e.course for e in enrollments]`: resolve each enrollment of the user to
its course; a dangling foreign key is an attribute error (`none`). -/
def enrolledCourses (s : Store) (email : String) : Option (List CourseR) :=
  optionMapList (fun e => s.courses.find? fun c => c.id == e.course_id)
    (s.enrollments.filter fun e => e.user_email == email)

/-- The grouped-schedule loop (app.py lines 271-281).  `cur` is
`current_weekday_index`; `none` is the initial `-1` sentinel, which differs
from every weekday value.  Python resets `current_weekday_index` only on a
change, but after each iteration it equals the course's weekday either way,
so the recursion passes `some c.weekday`. -/
def renderEnrolledLoop : List CourseR → Option (Option Nat) → Option String
  | [], _ => some ""
  | c :: rest, cur =>
    match
      (if cur = some c.weekday then some "" else
        match dayLabel c.weekday with
        | none => none
        | some d => some ("\n【週" ++ d ++ "】\n")) with
    | none => none
    | some hdr =>
      match renderEnrolledLoop rest (some c.weekday) with
      | none => none
      | some tail =>
        some (hdr ++ "   " ++ timeLabel c.start_time ++ " " ++
          c.course_name ++ "\n" ++ tail)

/-- The sorted course list of the my-enrollments branch, including the Python
sort key with its falsy-zero weekday. -/
def sortedEnrolled (cs : List CourseR) : List CourseR :=
  cs.mergeSort enrollLe

/-! ## The state machine, `handle_message` (app.py lines 114-295) -/

/-- One inbound text message: `msg` is the stripped text, `lid` the platform
user id, `today` the current date (UTC+8).  Returns the committed store and
the reply, or `none` when the Python code would raise. -/
def handle_message (s : Store) (lid msg : String) (today : Nat) :
    Option (Store × Reply) :=
  if msg = "綁定資料" then
    match findByLineId s lid with
    | some u =>
      if u.email ≠ "" ∧ strContainsChar u.email '@' = true ∧
          strEndsWith u.email "@temp" = false then
        some (s, ⟨alreadyBoundReply, []⟩)
      else
        some (setUser s { u with status := "check_identity" },
          ⟨welcomePrompt, identityButtons⟩)
    | none =>
      some (addUser s
        ⟨freshId s, some lid, placeholderEmail lid, none, none,
          "check_identity"⟩,
        ⟨welcomePrompt, identityButtons⟩)
  else
    match findByLineId s lid with
    | some u =>
      if u.status = "check_identity" then
        if msg = "是的，我是" then
          some (setUser s { u with status := "wait_email" },
            ⟨askEmailReply, []⟩)
        else if msg = "我只是路過的" then
          some (delUser s u.id, ⟨optOutReply, []⟩)
        else
          some (s, ⟨pressButtonPrompt, identityButtons⟩)
      else if u.status = "wait_email" then
        if strContainsChar msg '@' = true ∧
            strContainsChar msg '.' = true then
          match findByEmail s msg with
          | some other =>
            if other.id ≠ u.id then some (s, ⟨emailTakenReply, []⟩)
            else
              some (setUser s { u with email := msg, status := "wait_name" },
                ⟨askNameReply, []⟩)
          | none =>
            some (setUser s { u with email := msg, status := "wait_name" },
              ⟨askNameReply, []⟩)
        else
          some (s, ⟨badEmailReply, []⟩)
      else if u.status = "wait_name" then
        some (setUser s { u with name := some msg, status := "wait_dept" },
          ⟨helloNameReply msg, []⟩)
      else if u.status = "wait_dept" then
        some (setUser s { u with identity := some msg, status := "free" },
          ⟨bindDoneReply, []⟩)
      else if msg = "近期課程" then
        (renderRecent (upcomingCourses s today)).map fun t => (s, ⟨t, []⟩)
      else if msg = "我的資料" then
        some (s, ⟨profileReply u, []⟩)
      else if msg = "已選課程" then
        match enrolledCourses s u.email with
        | none => none
        | some cs =>
          if cs.isEmpty then some (s, ⟨noEnrollReply, []⟩)
          else
            (renderEnrolledLoop (sortedEnrolled cs) none).map fun t =>
              (s, ⟨"🗓️ 您的課表：\n" ++ t, []⟩)
      else if msg = "幫助" then
        some (s, ⟨helpReply, []⟩)
      else
        some (s, ⟨fallbackReply, []⟩)
    | none =>
      if msg = "近期課程" then
        (renderRecent (upcomingCourses s today)).map fun t => (s, ⟨t, []⟩)
      else
        some (s, ⟨pleaseBindReply, []⟩)

end LineBot

namespace LineBot

/-! ## Helper lemmas about the store operations -/

theorem updateById_mutation (u : UserR) (l : List UserR) :
    updateById u l = l ∨
      ∃ l1 l2 v, l = l1 ++ v :: l2 ∧ updateById u l = l1 ++ u :: l2 := by
  induction l with
  | nil => exact Or.inl rfl
  | cons w rest ih =>
    by_cases hw : w.id = u.id
    · exact Or.inr ⟨[], rest, w, rfl, by simp [updateById, hw]⟩
    · rcases ih with h | ⟨l1, l2, v, hl, hu⟩
      · exact Or.inl (by simp [updateById, hw, h])
      · exact Or.inr ⟨w :: l1, l2, v, by simp [hl], by simp [updateById, hw, hu]⟩

theorem deleteById_mutation (i : Nat) (l : List UserR) :
    deleteById i l = l ∨
      ∃ l1 l2 v, l = l1 ++ v :: l2 ∧ deleteById i l = l1 ++ l2 := by
  induction l with
  | nil => exact Or.inl rfl
  | cons w rest ih =>
    by_cases hw : w.id = i
    · exact Or.inr ⟨[], rest, w, rfl, by simp [deleteById, hw]⟩
    · rcases ih with h | ⟨l1, l2, v, hl, hu⟩
      · exact Or.inl (by simp [deleteById, hw, h])
      · exact Or.inr ⟨w :: l1, l2, v, by simp [hl], by simp [deleteById, hw, hu]⟩

/-- At most one User row is inserted, updated or deleted, and the course and
enrollment tables are untouched. -/
def atMostOneUserMutation (s t : Store) : Prop :=
  t.courses = s.courses ∧ t.enrollments = s.enrollments ∧
    (t.users = s.users ∨
      (∃ u, t.users = s.users ++ [u]) ∨
      (∃ l1 l2 v u, s.users = l1 ++ v :: l2 ∧ t.users = l1 ++ u :: l2) ∨
      (∃ l1 l2 v, s.users = l1 ++ v :: l2 ∧ t.users = l1 ++ l2))

theorem amoum_refl (s : Store) : atMostOneUserMutation s s :=
  ⟨rfl, rfl, Or.inl rfl⟩

theorem amoum_set (s : Store) (u : UserR) :
    atMostOneUserMutation s (setUser s u) := by
  refine ⟨rfl, rfl, ?_⟩
  rcases updateById_mutation u s.users with h | ⟨l1, l2, v, hl, hu⟩
  · exact Or.inl h
  · exact Or.inr (Or.inr (Or.inl ⟨l1, l2, v, u, hl, hu⟩))

theorem amoum_del (s : Store) (i : Nat) :
    atMostOneUserMutation s (delUser s i) := by
  refine ⟨rfl, rfl, ?_⟩
  rcases deleteById_mutation i s.users with h | ⟨l1, l2, v, hl, hu⟩
  · exact Or.inl h
  · exact Or.inr (Or.inr (Or.inr ⟨l1, l2, v, hl, hu⟩))

theorem amoum_add (s : Store) (u : UserR) :
    atMostOneUserMutation s (addUser s u) :=
  ⟨rfl, rfl, Or.inr (Or.inl ⟨u, rfl⟩)⟩

/-- C7: every message performs one atomic transition that mutates at most one
User entity and never touches Courses or Enrollments. -/
theorem handle_message_atMostOneUserMutation (s : Store) (lid msg : String)
    (today : Nat) (s' : Store) (r : Reply)
    (h : handle_message s lid msg today = some (s', r)) :
    atMostOneUserMutation s s' := by
  unfold handle_message at h
  repeat' split at h
  all_goals
    first
    | (simp only [Option.some.injEq, Prod.mk.injEq] at h
       obtain ⟨h1, h2⟩ := h
       subst h1
       first
       | exact amoum_refl _
       | exact amoum_set _ _
       | exact amoum_del _ _
       | exact amoum_add _ _)
    | (rw [Option.map_eq_some'] at h
       obtain ⟨t, ht, h2⟩ := h
       simp only [Prod.mk.injEq] at h2
       obtain ⟨h1, h3⟩ := h2
       subst h1
       exact amoum_refl _)
    | exact absurd h (by simp)

/-- C10: once a real email is stored (contains `@`, does not end in `@temp`),
"綁定資料" only replies already-bound and the store is unchanged, whatever the
user's status (including `wait_name` and `wait_dept`). -/
theorem bindProfile_alreadyBound (s : Store) (lid : String) (today : Nat)
    (u : UserR) (hu : findByLineId s lid = some u)
    (hat : strContainsChar u.email '@' = true)
    (htemp : strEndsWith u.email "@temp" = false) :
    handle_message s lid "綁定資料" today =
      some (s, ⟨alreadyBoundReply, []⟩) := by
  have hne : u.email ≠ "" := by
    intro he
    rw [he] at hat
    exact absurd hat (by decide)
  unfold handle_message
  rw [if_pos rfl]
  simp only [hu]
  exact if_pos ⟨hne, hat, htemp⟩

/-- C3: in state `wait_email`, an email-shaped message owned by a different
User gets the already-taken reply with no mutation; a fresh one is stored and
the state advances to `wait_name`. -/
theorem waitEmail_duplicate_guard (s : Store) (lid msg : String) (today : Nat)
    (u : UserR) (hu : findByLineId s lid = some u)
    (hst : u.status = "wait_email") (hmsg : msg ≠ "綁定資料")
    (hat : strContainsChar msg '@' = true)
    (hdot : strContainsChar msg '.' = true) :
    (∀ v, findByEmail s msg = some v → v.id ≠ u.id →
        handle_message s lid msg today = some (s, ⟨emailTakenReply, []⟩)) ∧
    (findByEmail s msg = none →
        handle_message s lid msg today =
          some (setUser s { u with email := msg, status := "wait_name" },
            ⟨askNameReply, []⟩)) := by
  have hci : ¬ u.status = "check_identity" := by rw [hst]; decide
  constructor
  · intro v hv hvne
    unfold handle_message
    rw [if_neg hmsg]
    simp only [hu]
    rw [if_neg hci, if_pos hst, if_pos ⟨hat, hdot⟩]
    simp only [hv]
    exact if_pos hvne
  · intro hnone
    unfold handle_message
    rw [if_neg hmsg]
    simp only [hu]
    rw [if_neg hci, if_pos hst, if_pos ⟨hat, hdot⟩]
    simp only [hnone]

theorem mem_of_mem_deleteById {v : UserR} {i : Nat} {l : List UserR}
    (h : v ∈ deleteById i l) : v ∈ l := by
  induction l with
  | nil => simp [deleteById] at h
  | cons w rest ih =>
    by_cases hw : w.id = i
    · simp only [deleteById, if_pos hw] at h
      exact List.mem_cons_of_mem _ h
    · simp only [deleteById, if_neg hw, List.mem_cons] at h
      rcases h with h | h
      · exact h ▸ List.mem_cons_self _ _
      · exact List.mem_cons_of_mem _ (ih h)

/-- With distinct primary keys, deleting a row by its id removes every row
carrying that id. -/
theorem deleteById_id_ne {l : List UserR} {u : UserR}
    (hnodup : (l.map UserR.id).Nodup) (hu : u ∈ l) :
    ∀ v ∈ deleteById u.id l, v.id ≠ u.id := by
  induction l with
  | nil => simp [deleteById]
  | cons w rest ih =>
    simp only [List.map_cons, List.nodup_cons] at hnodup
    obtain ⟨hw, hrest⟩ := hnodup
    by_cases hwid : w.id = u.id
    · intro v hv hvid
      simp only [deleteById, if_pos hwid] at hv
      have hwv : w.id = v.id := hwid.trans hvid.symm
      exact hw (hwv ▸ List.mem_map_of_mem _ hv)
    · intro v hv
      simp only [deleteById, if_neg hwid, List.mem_cons] at hv
      rcases hv with rfl | hv
      · exact hwid
      · have hu2 : u ∈ rest := by
          rcases List.mem_cons.mp hu with rfl | hu2
          · exact absurd rfl hwid
          · exact hu2
        exact ih hrest hu2 v hv

/-- C4: opting out from `check_identity` deletes the User row outright, after
which "綁定資料" finds no User and starts onboarding fresh with a new
placeholder row in state `check_identity`. -/
theorem checkIdentity_optOut (s : Store) (lid : String) (today : Nat)
    (u : UserR) (hu : findByLineId s lid = some u)
    (hst : u.status = "check_identity")
    (hnodup : (s.users.map UserR.id).Nodup)
    (honly : ∀ v ∈ s.users, v.line_user_id = some lid → v = u) :
    handle_message s lid "我只是路過的" today =
        some (delUser s u.id, ⟨optOutReply, []⟩) ∧
    (∀ v ∈ (delUser s u.id).users, v.id ≠ u.id) ∧
    findByLineId (delUser s u.id) lid = none ∧
    handle_message (delUser s u.id) lid "綁定資料" today =
      some (addUser (delUser s u.id)
          ⟨freshId (delUser s u.id), some lid, placeholderEmail lid, none,
            none, "check_identity"⟩,
        ⟨welcomePrompt, identityButtons⟩) := by
  have humem : u ∈ s.users := List.mem_of_find?_eq_some hu
  have hgone : ∀ v ∈ (delUser s u.id).users, v.id ≠ u.id :=
    deleteById_id_ne hnodup humem
  have hfind : findByLineId (delUser s u.id) lid = none := by
    rw [findByLineId, List.find?_eq_none]
    intro v hv hbeq
    have hvlid : v.line_user_id = some lid := by simpa using hbeq
    have hveq : v = u := honly v (mem_of_mem_deleteById hv) hvlid
    exact hgone v hv (by rw [hveq])
  refine ⟨?_, hgone, hfind, ?_⟩
  · unfold handle_message
    rw [if_neg (by decide)]
    simp only [hu]
    simp [hst]
  · unfold handle_message
    rw [if_pos rfl]
    simp only [hfind]

theorem lt_foldrMax (l : List UserR) :
    ∀ u ∈ l, u.id < l.foldr (fun u m => max (u.id + 1) m) 0 := by
  induction l with
  | nil => simp
  | cons w rest ih =>
    intro u hu
    rcases List.mem_cons.mp hu with rfl | hu2
    · exact lt_of_lt_of_le (Nat.lt_succ_self _) (le_max_left _ _)
    · exact lt_of_lt_of_le (ih u hu2) (le_max_right _ _)

theorem find?_snoc_of_none {α : Type} (l : List α) (p : α → Bool)
    (h : l.find? p = none) (x : α) :
    (l ++ [x]).find? p = if p x then some x else none := by
  rw [List.find?_append, h]
  cases hx : p x <;> simp [List.find?, hx]

theorem updateById_snoc (l : List UserR) (u u' : UserR)
    (hne : ∀ v ∈ l, v.id ≠ u'.id) (hid : u.id = u'.id) :
    updateById u' (l ++ [u]) = l ++ [u'] := by
  induction l with
  | nil => simp [updateById, hid]
  | cons w rest ih =>
    have hw : w.id ≠ u'.id := hne w (List.mem_cons_self _ _)
    have ih2 := ih fun v hv => hne v (List.mem_cons_of_mem _ hv)
    simp [updateById, hw, ih2]

/-- C2: from the unbound state, the message sequence 綁定資料, 是的，我是, a
fresh valid email, a name, and a department ends with one new User row whose
email, name, identity and status (= `free`) are all set, and the final reply
is the binding-complete confirmation. -/
theorem binding_flow (s0 : Store) (lid email nm dept : String) (today : Nat)
    (h0 : findByLineId s0 lid = none)
    (hat : strContainsChar email '@' = true)
    (hdot : strContainsChar email '.' = true)
    (hfresh : ∀ u ∈ s0.users, u.email ≠ email)
    (hph : email ≠ placeholderEmail lid)
    (he : email ≠ "綁定資料") (hn : nm ≠ "綁定資料")
    (hd : dept ≠ "綁定資料") :
    ∃ r1 r2 r3 r4,
      handle_message s0 lid "綁定資料" today =
        some (Store.mk (s0.users ++ [⟨freshId s0, some lid,
          placeholderEmail lid, none, none, "check_identity"⟩]) s0.courses
          s0.enrollments, r1) ∧
      handle_message (Store.mk (s0.users ++ [⟨freshId s0, some lid,
          placeholderEmail lid, none, none, "check_identity"⟩]) s0.courses
          s0.enrollments) lid "是的，我是" today =
        some (Store.mk (s0.users ++ [⟨freshId s0, some lid,
          placeholderEmail lid, none, none, "wait_email"⟩]) s0.courses
          s0.enrollments, r2) ∧
      handle_message (Store.mk (s0.users ++ [⟨freshId s0, some lid,
          placeholderEmail lid, none, none, "wait_email"⟩]) s0.courses
          s0.enrollments) lid email today =
        some (Store.mk (s0.users ++ [⟨freshId s0, some lid, email, none,
          none, "wait_name"⟩]) s0.courses s0.enrollments, r3) ∧
      handle_message (Store.mk (s0.users ++ [⟨freshId s0, some lid, email,
          none, none, "wait_name"⟩]) s0.courses s0.enrollments) lid nm
          today =
        some (Store.mk (s0.users ++ [⟨freshId s0, some lid, email, some nm,
          none, "wait_dept"⟩]) s0.courses s0.enrollments, r4) ∧
      handle_message (Store.mk (s0.users ++ [⟨freshId s0, some lid, email,
          some nm, none, "wait_dept"⟩]) s0.courses s0.enrollments) lid dept
          today =
        some (Store.mk (s0.users ++ [⟨freshId s0, some lid, email, some nm,
          some dept, "free"⟩]) s0.courses s0.enrollments,
          ⟨bindDoneReply, []⟩) := by
  obtain ⟨us, cs, es⟩ := s0
  simp only [findByLineId] at h0
  simp only at hfresh
  have hne : ∀ v ∈ us,
      v.id ≠ freshId (Store.mk us cs es) :=
    fun v hv => Nat.ne_of_lt (lt_foldrMax us v hv)
  have hfind1 : List.find? (fun u => u.line_user_id == some lid)
      (us ++ [(⟨freshId (Store.mk us cs es), some lid, placeholderEmail lid,
        none, none, "check_identity"⟩ : UserR)]) =
      some ⟨freshId (Store.mk us cs es), some lid, placeholderEmail lid,
        none, none, "check_identity"⟩ := by
    rw [find?_snoc_of_none us _ h0]
    simp
  have hfind2 : List.find? (fun u => u.line_user_id == some lid)
      (us ++ [(⟨freshId (Store.mk us cs es), some lid, placeholderEmail lid,
        none, none, "wait_email"⟩ : UserR)]) =
      some ⟨freshId (Store.mk us cs es), some lid, placeholderEmail lid,
        none, none, "wait_email"⟩ := by
    rw [find?_snoc_of_none us _ h0]
    simp
  have hfind3 : List.find? (fun u => u.line_user_id == some lid)
      (us ++ [(⟨freshId (Store.mk us cs es), some lid, email, none, none,
        "wait_name"⟩ : UserR)]) =
      some ⟨freshId (Store.mk us cs es), some lid, email, none, none,
        "wait_name"⟩ := by
    rw [find?_snoc_of_none us _ h0]
    simp
  have hfind4 : List.find? (fun u => u.line_user_id == some lid)
      (us ++ [(⟨freshId (Store.mk us cs es), some lid, email, some nm, none,
        "wait_dept"⟩ : UserR)]) =
      some ⟨freshId (Store.mk us cs es), some lid, email, some nm, none,
        "wait_dept"⟩ := by
    rw [find?_snoc_of_none us _ h0]
    simp
  have hmailpre : List.find? (fun u => u.email == email) us = none := by
    rw [List.find?_eq_none]
    intro v hv hbeq
    exact hfresh v hv (by simpa using hbeq)
  have hmail : List.find? (fun u => u.email == email)
      (us ++ [(⟨freshId (Store.mk us cs es), some lid, placeholderEmail lid,
        none, none, "wait_email"⟩ : UserR)]) = none := by
    rw [find?_snoc_of_none us _ hmailpre]
    have : ((placeholderEmail lid : String) == email) = false := by
      simp only [beq_eq_false_iff_ne, ne_eq]
      intro hcontra
      exact hph hcontra.symm
    simp [this]
  refine ⟨⟨welcomePrompt, identityButtons⟩, ⟨askEmailReply, []⟩,
    ⟨askNameReply, []⟩, ⟨helloNameReply nm, []⟩, ?_, ?_, ?_, ?_, ?_⟩
  · unfold handle_message
    rw [if_pos rfl]
    simp [findByLineId, h0, addUser]
  · unfold handle_message
    rw [if_neg (by decide)]
    simp only [findByLineId, hfind1]
    have hupd := updateById_snoc us
      (⟨freshId (Store.mk us cs es), some lid, placeholderEmail lid, none,
        none, "check_identity"⟩ : UserR)
      (⟨freshId (Store.mk us cs es), some lid, placeholderEmail lid, none,
        none, "wait_email"⟩ : UserR) hne rfl
    simp [setUser, hupd]
  · unfold handle_message
    rw [if_neg he]
    simp only [findByLineId, hfind2]
    have hupd := updateById_snoc us
      (⟨freshId (Store.mk us cs es), some lid, placeholderEmail lid, none,
        none, "wait_email"⟩ : UserR)
      (⟨freshId (Store.mk us cs es), some lid, email, none, none,
        "wait_name"⟩ : UserR) hne rfl
    simp [findByEmail, hmail, hat, hdot, setUser, hupd]
  · unfold handle_message
    rw [if_neg hn]
    simp only [findByLineId, hfind3]
    have hupd := updateById_snoc us
      (⟨freshId (Store.mk us cs es), some lid, email, none, none,
        "wait_name"⟩ : UserR)
      (⟨freshId (Store.mk us cs es), some lid, email, some nm, none,
        "wait_dept"⟩ : UserR) hne rfl
    simp [setUser, hupd]
  · unfold handle_message
    rw [if_neg hd]
    simp only [findByLineId, hfind4]
    have hupd := updateById_snoc us
      (⟨freshId (Store.mk us cs es), some lid, email, some nm, none,
        "wait_dept"⟩ : UserR)
      (⟨freshId (Store.mk us cs es), some lid, email, some nm, some dept,
        "free"⟩ : UserR) hne rfl
    simp [setUser, hupd]

/-- Complete characterization of the store transitions `handle_message` can
commit, with the guards under which each occurs. -/
theorem handle_message_cases (s : Store) (lid msg : String) (today : Nat)
    (s' : Store) (r : Reply)
    (h : handle_message s lid msg today = some (s', r)) :
    s' = s ∨
    (findByLineId s lid = none ∧
      s' = addUser s ⟨freshId s, some lid, placeholderEmail lid, none, none,
        "check_identity"⟩) ∨
    (∃ u, findByLineId s lid = some u ∧ s' = delUser s u.id) ∨
    (∃ u, findByLineId s lid = some u ∧
      s' = setUser s { u with status := "check_identity" }) ∨
    (∃ u, findByLineId s lid = some u ∧
      s' = setUser s { u with status := "wait_email" }) ∨
    (∃ u, findByLineId s lid = some u ∧
      s' = setUser s { u with name := some msg, status := "wait_dept" }) ∨
    (∃ u, findByLineId s lid = some u ∧
      s' = setUser s { u with identity := some msg, status := "free" }) ∨
    (∃ u, findByLineId s lid = some u ∧
      (findByEmail s msg = none ∨
        (∃ v, findByEmail s msg = some v ∧ v.id = u.id)) ∧
      s' = setUser s { u with email := msg, status := "wait_name" }) := by
  unfold handle_message at h
  split at h
  · -- msg = "綁定資料"
    split at h
    · -- bound user found
      next u heq =>
        split at h
        · simp only [Option.some.injEq, Prod.mk.injEq] at h
          exact Or.inl h.1.symm
        · simp only [Option.some.injEq, Prod.mk.injEq] at h
          exact Or.inr (Or.inr (Or.inr (Or.inl ⟨u, heq, h.1.symm⟩)))
    · -- no user
      next heq =>
        simp only [Option.some.injEq, Prod.mk.injEq] at h
        exact Or.inr (Or.inl ⟨heq, h.1.symm⟩)
  · -- other message
    split at h
    · -- user found
      next u heq =>
        split at h
        · -- check_identity
          split at h
          · simp only [Option.some.injEq, Prod.mk.injEq] at h
            exact Or.inr (Or.inr (Or.inr (Or.inr (Or.inl ⟨u, heq, h.1.symm⟩))))
          · split at h
            · simp only [Option.some.injEq, Prod.mk.injEq] at h
              exact Or.inr (Or.inr (Or.inl ⟨u, heq, h.1.symm⟩))
            · simp only [Option.some.injEq, Prod.mk.injEq] at h
              exact Or.inl h.1.symm
        · split at h
          · -- wait_email
            split at h
            · -- looks like an email
              split at h
              · -- duplicate check found some row
                next v heqv =>
                  split at h
                  · simp only [Option.some.injEq, Prod.mk.injEq] at h
                    exact Or.inl h.1.symm
                  · next hne =>
                      simp only [Option.some.injEq, Prod.mk.injEq] at h
                      exact Or.inr (Or.inr (Or.inr (Or.inr (Or.inr (Or.inr
                        (Or.inr ⟨u, heq,
                          Or.inr ⟨v, heqv, not_not.mp hne⟩, h.1.symm⟩))))))
              · next heqv =>
                  simp only [Option.some.injEq, Prod.mk.injEq] at h
                  exact Or.inr (Or.inr (Or.inr (Or.inr (Or.inr (Or.inr
                    (Or.inr ⟨u, heq, Or.inl heqv, h.1.symm⟩))))))
            · simp only [Option.some.injEq, Prod.mk.injEq] at h
              exact Or.inl h.1.symm
          · split at h
            · -- wait_name
              simp only [Option.some.injEq, Prod.mk.injEq] at h
              exact Or.inr (Or.inr (Or.inr (Or.inr (Or.inr
                (Or.inl ⟨u, heq, h.1.symm⟩)))))
            · split at h
              · -- wait_dept
                simp only [Option.some.injEq, Prod.mk.injEq] at h
                exact Or.inr (Or.inr (Or.inr (Or.inr (Or.inr (Or.inr
                  (Or.inl ⟨u, heq, h.1.symm⟩))))))
              · split at h
                · -- 近期課程
                  rw [Option.map_eq_some'] at h
                  obtain ⟨t, ht, h2⟩ := h
                  simp only [Prod.mk.injEq] at h2
                  exact Or.inl h2.1.symm
                · split at h
                  · -- 我的資料
                    simp only [Option.some.injEq, Prod.mk.injEq] at h
                    exact Or.inl h.1.symm
                  · split at h
                    · -- 已選課程
                      split at h
                      · exact absurd h (by simp)
                      · -- courses resolved
                        split at h
                        · simp only [Option.some.injEq, Prod.mk.injEq] at h
                          exact Or.inl h.1.symm
                        · rw [Option.map_eq_some'] at h
                          obtain ⟨t, ht, h2⟩ := h
                          simp only [Prod.mk.injEq] at h2
                          exact Or.inl h2.1.symm
                    · split at h
                      · -- 幫助
                        simp only [Option.some.injEq, Prod.mk.injEq] at h
                        exact Or.inl h.1.symm
                      · simp only [Option.some.injEq, Prod.mk.injEq] at h
                        exact Or.inl h.1.symm
    · -- no user
      split at h
      · rw [Option.map_eq_some'] at h
        obtain ⟨t, ht, h2⟩ := h
        simp only [Prod.mk.injEq] at h2
        exact Or.inl h2.1.symm
      · simp only [Option.some.injEq, Prod.mk.injEq] at h
        exact Or.inl h.1.symm

theorem mem_updateById {x u : UserR} {l : List UserR}
    (h : x ∈ updateById u l) : x ∈ l ∨ x = u := by
  induction l with
  | nil => simp [updateById] at h
  | cons w rest ih =>
    by_cases hw : w.id = u.id
    · simp only [updateById, if_pos hw, List.mem_cons] at h
      rcases h with rfl | h
      · exact Or.inr rfl
      · exact Or.inl (List.mem_cons_of_mem _ h)
    · simp only [updateById, if_neg hw, List.mem_cons] at h
      rcases h with rfl | h
      · exact Or.inl (List.mem_cons_self _ _)
      · rcases ih h with h2 | h2
        · exact Or.inl (List.mem_cons_of_mem _ h2)
        · exact Or.inr h2

/-- Replacing a row by one with the same id and same email leaves the email
column unchanged, given unique ids. -/
theorem map_email_updateById {l : List UserR} {u u' : UserR}
    (hids : (l.map UserR.id).Nodup) (hu : u ∈ l) (hid : u'.id = u.id)
    (hem : u'.email = u.email) :
    (updateById u' l).map UserR.email = l.map UserR.email := by
  induction l with
  | nil => rfl
  | cons w rest ih =>
    simp only [List.map_cons, List.nodup_cons] at hids
    obtain ⟨hw, hrest⟩ := hids
    by_cases hwid : w.id = u'.id
    · have huw : u = w := by
        rcases List.mem_cons.mp hu with rfl | hu2
        · rfl
        · exact absurd (by rw [hwid, hid]; exact List.mem_map_of_mem _ hu2) hw
      simp only [updateById, if_pos hwid, List.map_cons]
      rw [hem, huw]
    · have hu2 : u ∈ rest := by
        rcases List.mem_cons.mp hu with rfl | hu2
        · exact absurd (hid.symm ▸ rfl) hwid
        · exact hu2
      simp only [updateById, if_neg hwid, List.map_cons]
      rw [ih hrest hu2]

/-- Replacing a row by one whose email no current row carries preserves
pairwise-distinct emails. -/
theorem nodup_email_updateById_fresh {l : List UserR} {u' : UserR}
    (hdist : (l.map UserR.email).Nodup)
    (hfresh : ∀ v ∈ l, v.email ≠ u'.email) :
    ((updateById u' l).map UserR.email).Nodup := by
  induction l with
  | nil => simp [updateById]
  | cons w rest ih =>
    simp only [List.map_cons, List.nodup_cons] at hdist
    obtain ⟨hw, hrest⟩ := hdist
    by_cases hwid : w.id = u'.id
    · simp only [updateById, if_pos hwid, List.map_cons, List.nodup_cons]
      refine ⟨?_, hrest⟩
      intro hmem
      obtain ⟨v, hv, hve⟩ := List.mem_map.mp hmem
      exact hfresh v (List.mem_cons_of_mem _ hv) hve
    · simp only [updateById, if_neg hwid, List.map_cons, List.nodup_cons]
      refine ⟨?_, ih hrest fun v hv => hfresh v (List.mem_cons_of_mem _ hv)⟩
      intro hmem
      obtain ⟨v, hv, hve⟩ := List.mem_map.mp hmem
      rcases mem_updateById hv with h2 | rfl
      · exact hw (hve ▸ List.mem_map_of_mem _ h2)
      · exact hfresh w (List.mem_cons_self _ _) hve.symm

theorem deleteById_sublist (i : Nat) (l : List UserR) :
    (deleteById i l).Sublist l := by
  induction l with
  | nil => simp [deleteById]
  | cons w rest ih =>
    by_cases hw : w.id = i
    · simp only [deleteById, if_pos hw]
      exact List.sublist_cons_of_sublist _ (List.Sublist.refl _)
    · simp only [deleteById, if_neg hw]
      exact List.Sublist.cons₂ _ ih

/-- A row replacement that keeps id and email preserves the email column of
the store. -/
theorem setUser_email_nodup {s : Store} {u u' : UserR}
    (hids : (s.users.map UserR.id).Nodup)
    (hdist : (s.users.map UserR.email).Nodup)
    (hu : u ∈ s.users) (hid : u'.id = u.id) (hem : u'.email = u.email) :
    ((setUser s u').users.map UserR.email).Nodup := by
  have hsu : (setUser s u').users = updateById u' s.users := rfl
  rw [hsu, map_email_updateById hids hu hid hem]
  exact hdist

/-- C9: email uniqueness is preserved by every committed transition, assuming
unique primary keys and that no stored email collides with the placeholder
derived from the sender's platform id. -/
theorem email_uniqueness_preserved (s : Store) (lid msg : String)
    (today : Nat) (s' : Store) (r : Reply)
    (h : handle_message s lid msg today = some (s', r))
    (hdist : (s.users.map UserR.email).Nodup)
    (hids : (s.users.map UserR.id).Nodup)
    (hph : ∀ u ∈ s.users, u.email ≠ placeholderEmail lid) :
    (s'.users.map UserR.email).Nodup := by
  rcases handle_message_cases s lid msg today s' r h with
    rfl | ⟨-, rfl⟩ | ⟨u, hu, rfl⟩ | ⟨u, hu, rfl⟩ | ⟨u, hu, rfl⟩ |
    ⟨u, hu, rfl⟩ | ⟨u, hu, rfl⟩ | ⟨u, hu, hguard, rfl⟩
  · exact hdist
  · simp only [addUser, List.map_append, List.map_cons, List.map_nil]
    refine List.Nodup.append hdist (by simp) ?_
    intro a ha hb
    simp only [List.mem_singleton] at hb
    obtain ⟨v, hv, hva⟩ := List.mem_map.mp ha
    exact hph v hv (by rw [hva, hb])
  · exact hdist.sublist ((deleteById_sublist u.id s.users).map _)
  · exact setUser_email_nodup hids hdist (List.mem_of_find?_eq_some hu)
      rfl rfl
  · exact setUser_email_nodup hids hdist (List.mem_of_find?_eq_some hu)
      rfl rfl
  · exact setUser_email_nodup hids hdist (List.mem_of_find?_eq_some hu)
      rfl rfl
  · exact setUser_email_nodup hids hdist (List.mem_of_find?_eq_some hu)
      rfl rfl
  · rcases hguard with hnone | ⟨v, hv, hvid⟩
    · rw [findByEmail, List.find?_eq_none] at hnone
      exact nodup_email_updateById_fresh hdist fun w hw hwe =>
        hnone w hw (by simp [hwe])
    · have hvu : v = u :=
        List.inj_on_of_nodup_map hids
          (List.mem_of_find?_eq_some hv) (List.mem_of_find?_eq_some hu)
          hvid
      have hvmail : v.email = msg := by
        have h2 := List.find?_some hv
        simpa using h2
      exact setUser_email_nodup hids hdist (List.mem_of_find?_eq_some hu)
        rfl (by rw [← hvu, hvmail])

/-! ## Totality (C8) -/

theorem dayLabel_isSome {o : Option Nat}
    (h : ∀ w, o = some w → w < 7) : (dayLabel o).isSome := by
  match o with
  | none => rfl
  | some w =>
    have hw : w < 7 := h w rfl
    simp only [dayLabel]
    cases hg : days_map.get? w with
    | none =>
      have := List.get?_eq_none.mp hg
      simp [days_map] at this
      omega
    | some d => rfl

theorem renderCourseLine_isSome {c : CourseR}
    (h : ∀ w, c.weekday = some w → w < 7) :
    (renderCourseLine c).isSome := by
  have hd := dayLabel_isSome h
  unfold renderCourseLine
  cases hg : dayLabel c.weekday with
  | none => rw [hg] at hd; exact absurd hd (by simp)
  | some d => rfl

theorem optionMapList_isSome {α β : Type} {f : α → Option β} {l : List α}
    (h : ∀ x ∈ l, (f x).isSome) : (optionMapList f l).isSome := by
  induction l with
  | nil => rfl
  | cons x xs ih =>
    have hx := h x (List.mem_cons_self _ _)
    have hxs := ih fun y hy => h y (List.mem_cons_of_mem _ hy)
    unfold optionMapList
    cases hfx : f x with
    | none => rw [hfx] at hx; exact absurd hx (by simp)
    | some y =>
      cases hrest : optionMapList f xs with
      | none => rw [hrest] at hxs; exact absurd hxs (by simp)
      | some ys => rfl

theorem optionMapList_mem {α β : Type} {f : α → Option β} {l : List α}
    {ys : List β} (h : optionMapList f l = some ys) :
    ∀ y ∈ ys, ∃ x ∈ l, f x = some y := by
  induction l generalizing ys with
  | nil =>
    simp only [optionMapList, Option.some.injEq] at h
    subst h
    simp
  | cons x xs ih =>
    unfold optionMapList at h
    cases hfx : f x with
    | none => rw [hfx] at h; exact absurd h (by simp)
    | some y0 =>
      rw [hfx] at h
      cases hrest : optionMapList f xs with
      | none => rw [hrest] at h; exact absurd h (by simp)
      | some ys0 =>
        rw [hrest] at h
        simp only [Option.some.injEq] at h
        subst h
        intro y hy
        rcases List.mem_cons.mp hy with rfl | hy2
        · exact ⟨x, List.mem_cons_self _ _, hfx⟩
        · obtain ⟨x2, hx2, hfx2⟩ := ih hrest y hy2
          exact ⟨x2, List.mem_cons_of_mem _ hx2, hfx2⟩

theorem renderRecent_isSome {cs : List CourseR}
    (h : ∀ c ∈ cs, ∀ w, c.weekday = some w → w < 7) :
    (renderRecent cs).isSome := by
  unfold renderRecent
  split
  · rfl
  · have hl : (optionMapList renderCourseLine cs).isSome :=
      optionMapList_isSome fun c hc => renderCourseLine_isSome (h c hc)
    cases hg : optionMapList renderCourseLine cs with
    | none => rw [hg] at hl; exact absurd hl (by simp)
    | some lines => rfl

theorem renderEnrolledLoop_isSome {cs : List CourseR}
    (h : ∀ c ∈ cs, ∀ w, c.weekday = some w → w < 7) :
    ∀ cur, (renderEnrolledLoop cs cur).isSome := by
  induction cs with
  | nil => intro cur; rfl
  | cons c rest ih =>
    intro cur
    have hd := dayLabel_isSome (h c (List.mem_cons_self _ _))
    have htail := ih (fun x hx => h x (List.mem_cons_of_mem _ hx))
      (some c.weekday)
    unfold renderEnrolledLoop
    have hhdr : ((if cur = some c.weekday then some "" else
        match dayLabel c.weekday with
        | none => none
        | some d => some ("\n【週" ++ d ++ "】\n")) : Option String).isSome := by
      split
      · rfl
      · cases hg : dayLabel c.weekday with
        | none => rw [hg] at hd; exact absurd hd (by simp)
        | some d => rfl
    cases hg : (if cur = some c.weekday then some "" else
        match dayLabel c.weekday with
        | none => none
        | some d => some ("\n【週" ++ d ++ "】\n") : Option String) with
    | none => rw [hg] at hhdr; exact absurd hhdr (by simp)
    | some hdr =>
      cases ht : renderEnrolledLoop rest (some c.weekday) with
      | none => rw [ht] at htail; exact absurd htail (by simp)
      | some tail => rfl

theorem mem_of_mem_upcomingCourses {s : Store} {today : Nat} {c : CourseR}
    (h : c ∈ upcomingCourses s today) : c ∈ s.courses := by
  unfold upcomingCourses at h
  rw [List.mem_mergeSort] at h
  exact (List.mem_filter.mp h).1

theorem enrolledCourses_isSome (s : Store) (email : String)
    (hfk : ∀ e ∈ s.enrollments, ∃ c ∈ s.courses, c.id = e.course_id) :
    (enrolledCourses s email).isSome := by
  unfold enrolledCourses
  apply optionMapList_isSome
  intro e he
  have he2 : e ∈ s.enrollments := (List.mem_filter.mp he).1
  obtain ⟨c, hc, hcid⟩ := hfk e he2
  rw [Option.isSome_iff_exists]
  have : (s.courses.find? fun c2 => c2.id == e.course_id).isSome := by
    rw [List.find?_isSome]
    exact ⟨c, hc, by simp [hcid]⟩
  rwa [Option.isSome_iff_exists] at this

theorem enrolledCourses_mem {s : Store} {email : String} {cs : List CourseR}
    (h : enrolledCourses s email = some cs) : ∀ c ∈ cs, c ∈ s.courses := by
  intro c hc
  obtain ⟨e, he, hfe⟩ := optionMapList_mem h c hc
  exact List.mem_of_find?_eq_some hfe

/-- C8: the handler is total on every store whose course weekdays are null or
in 0..6 and whose enrollments reference existing courses, for every message
(including the empty string): no branch raises and every input falls through
to some reply. -/
theorem handle_message_total (s : Store) (lid msg : String) (today : Nat)
    (hwd : ∀ c ∈ s.courses, ∀ w, c.weekday = some w → w < 7)
    (hfk : ∀ e ∈ s.enrollments, ∃ c ∈ s.courses, c.id = e.course_id) :
    (handle_message s lid msg today).isSome := by
  have hrecent : (renderRecent (upcomingCourses s today)).isSome :=
    renderRecent_isSome fun c hc => hwd c (mem_of_mem_upcomingCourses hc)
  unfold handle_message
  repeat' split
  all_goals
    first
    | rfl
    | (rw [Option.isSome_map']
       exact hrecent)
    | (rename_i heq
       exact absurd heq (Option.ne_none_iff_isSome.mpr
         (enrolledCourses_isSome s _ hfk)))
    | (rename_i cs heq hne
       rw [Option.isSome_map']
       exact renderEnrolledLoop_isSome
         (fun c hc => hwd c (enrolledCourses_mem heq c
           (List.mem_mergeSort.mp hc)))
         none)

/-! ## Recent-courses correctness (C5) -/

theorem days_map_get?_eq {w : Nat} (hw : w < 7) :
    days_map.get? w = some (days_map.getD w "") := by
  interval_cases w <;> rfl

theorem isUpcoming_iff (today : Nat) (c : CourseR) :
    isUpcoming today c = true ↔
      (c.end_date = none ∨ ∃ d, c.end_date = some d ∧ today ≤ d) := by
  unfold isUpcoming
  cases c.end_date <;> simp

theorem lexLe_trans (p q r x y z : Nat × Nat)
    (h1 : (lt2 p q || (p == q && le2 x y)) = true)
    (h2 : (lt2 q r || (q == r && le2 y z)) = true) :
    (lt2 p r || (p == r && le2 x z)) = true := by
  obtain ⟨p1, p2⟩ := p
  obtain ⟨q1, q2⟩ := q
  obtain ⟨r1, r2⟩ := r
  obtain ⟨x1, x2⟩ := x
  obtain ⟨y1, y2⟩ := y
  obtain ⟨z1, z2⟩ := z
  simp only [lt2, le2, Bool.or_eq_true, Bool.and_eq_true, beq_iff_eq,
    decide_eq_true_eq, Prod.mk.injEq] at h1 h2 ⊢
  omega

theorem lexLe_total (p q x y : Nat × Nat) :
    ((lt2 p q || (p == q && le2 x y)) ||
      (lt2 q p || (q == p && le2 y x))) = true := by
  obtain ⟨p1, p2⟩ := p
  obtain ⟨q1, q2⟩ := q
  obtain ⟨x1, x2⟩ := x
  obtain ⟨y1, y2⟩ := y
  simp only [lt2, le2, Bool.or_eq_true, Bool.and_eq_true, beq_iff_eq,
    decide_eq_true_eq, Prod.mk.injEq]
  omega

theorem courseLe_trans (a b c : CourseR) (h1 : courseLe a b)
    (h2 : courseLe b c) : courseLe a c :=
  lexLe_trans _ _ _ _ _ _ h1 h2

theorem courseLe_total (a b : CourseR) : courseLe a b || courseLe b a :=
  lexLe_total _ _ _ _

theorem renderCourseLine_eq {c : CourseR}
    (h : ∀ w, c.weekday = some w → w < 7) :
    renderCourseLine c =
      some ("🔹 " ++ c.course_name ++ "\n   (週" ++
        (match c.weekday with
         | none => "待定"
         | some w => days_map.getD w "") ++ " " ++
        timeLabel c.start_time ++ ")\n" ++
        (match c.end_date with
         | none => ""
         | some e => "   ~ 至 " ++ toString e ++ " 截止\n")) := by
  unfold renderCourseLine dayLabel
  cases hw : c.weekday with
  | none => rfl
  | some w =>
    simp only [days_map_get?_eq (h w hw)]

/-- C5: the recent-courses command filters exactly the courses whose end date
is absent or on/after today, orders them by weekday then start time with
nulls last, renders each with its day label or 待定 placeholder, the time or
待定, an end-date note when present, and appends the calendar link. -/
theorem recentCourses_correct (s : Store) (lid : String) (today : Nat)
    (hwd : ∀ c ∈ s.courses, ∀ w, c.weekday = some w → w < 7)
    (huser : findByLineId s lid = none ∨
      ∃ u, findByLineId s lid = some u ∧ u.status ≠ "check_identity" ∧
        u.status ≠ "wait_email" ∧ u.status ≠ "wait_name" ∧
        u.status ≠ "wait_dept")
    (hne : upcomingCourses s today ≠ []) :
    ∃ lines,
      (∀ c, c ∈ upcomingCourses s today ↔ c ∈ s.courses ∧
        (c.end_date = none ∨ ∃ d, c.end_date = some d ∧ today ≤ d)) ∧
      (upcomingCourses s today).Pairwise
        (fun a b => courseLe a b = true) ∧
      optionMapList renderCourseLine (upcomingCourses s today) =
        some lines ∧
      (∀ c ∈ upcomingCourses s today, renderCourseLine c =
        some ("🔹 " ++ c.course_name ++ "\n   (週" ++
          (match c.weekday with
           | none => "待定"
           | some w => days_map.getD w "") ++ " " ++
          timeLabel c.start_time ++ ")\n" ++
          (match c.end_date with
           | none => ""
           | some e => "   ~ 至 " ++ toString e ++ " 截止\n"))) ∧
      handle_message s lid "近期課程" today =
        some (s, ⟨"📋 近期課程一覽：\n----------------------\n" ++
          String.join lines ++ "\n📅 查看完整行事曆：\n" ++ calendarLink,
          []⟩) := by
  have hmemwd : ∀ c ∈ upcomingCourses s today, ∀ w,
      c.weekday = some w → w < 7 :=
    fun c hc => hwd c (mem_of_mem_upcomingCourses hc)
  have hsomel : (optionMapList renderCourseLine
      (upcomingCourses s today)).isSome :=
    optionMapList_isSome fun c hc => renderCourseLine_isSome (hmemwd c hc)
  obtain ⟨lines, hlines⟩ := Option.isSome_iff_exists.mp hsomel
  have hrr : renderRecent (upcomingCourses s today) =
      some ("📋 近期課程一覽：\n----------------------\n" ++
        String.join lines ++ "\n📅 查看完整行事曆：\n" ++ calendarLink) := by
    unfold renderRecent
    rw [if_neg (by
      intro hemp
      exact hne (List.isEmpty_iff.mp hemp)), hlines]
  refine ⟨lines, ?_, ?_, hlines, ?_, ?_⟩
  · intro c
    unfold upcomingCourses
    rw [List.mem_mergeSort, List.mem_filter, isUpcoming_iff]
  · exact List.sorted_mergeSort courseLe_trans courseLe_total _
  · exact fun c hc => renderCourseLine_eq (hmemwd c hc)
  · rcases huser with hnone | ⟨u, hu, h1, h2, h3, h4⟩
    · unfold handle_message
      rw [if_neg (by decide)]
      simp only [hnone]
      simp [hrr]
    · unfold handle_message
      rw [if_neg (by decide)]
      simp only [hu]
      simp [h1, h2, h3, h4, hrr]

/-! ## The "已選課程" ordering bug (C1) -/

unseal List.merge List.mergeSort in
/-- C1 evaluation at the failing input: a bound user enrolled in a Monday
(weekday 0, 09:00) course and a Tuesday (weekday 1, 09:00) course.  Because
the Python sort key `x.weekday or 999` treats the integer 0 as falsy, the
Monday course sorts as 999 — the code lists the 週二 section before 週一,
while the claimed order is Monday first and only null weekdays last. -/
theorem enrollSort_lists_monday_last :
    sortedEnrolled
      [⟨1, "Mon", some 0, some 540, none⟩,
        ⟨2, "Tue", some 1, some 540, none⟩] =
      [⟨2, "Tue", some 1, some 540, none⟩,
        ⟨1, "Mon", some 0, some 540, none⟩] ∧
    handle_message
      ⟨[⟨1, some "L", "a@b.c", some "Amy", some "N", "free"⟩],
        [⟨1, "Mon", some 0, some 540, none⟩,
          ⟨2, "Tue", some 1, some 540, none⟩],
        [⟨1, "a@b.c", 1⟩, ⟨2, "a@b.c", 2⟩]⟩
      "L" "已選課程" 0 =
      some (⟨[⟨1, some "L", "a@b.c", some "Amy", some "N", "free"⟩],
        [⟨1, "Mon", some 0, some 540, none⟩,
          ⟨2, "Tue", some 1, some 540, none⟩],
        [⟨1, "a@b.c", 1⟩, ⟨2, "a@b.c", 2⟩]⟩,
        ⟨"🗓️ 您的課表：\n\n【週二】\n   09:00 Tue\n\n【週一】\n   09:00 Mon\n",
          []⟩) := by
  constructor
  · rfl
  · rfl

/-! ## Variant B check-in (C6) -/

/-- Modelled from the spec: Variant B's `Enrollment` carries a nullable
check-in timestamp.  The source's `Enrollment` (app.py lines 58-63) has no
such column and `handle_message` has no check-in branch, so Variant B is
absent from src/ and is embedded from §4.2 of the spec. -/
structure EnrollmentB where
  id : Nat
  user_email : String
  course_id : Nat
  checked_in_at : Option Nat
deriving DecidableEq

/-- Modelled from the spec: one "check in" pass for a bound user — "for
every Enrollment of that user whose check-in timestamp is null, set it to
the current time; reply with count of newly checked-in enrollments". -/
def checkIn (now : Nat) (email : String) (es : List EnrollmentB) :
    List EnrollmentB × Nat :=
  (es.map fun e =>
      if e.user_email = email ∧ e.checked_in_at = none then
        { e with checked_in_at := some now } else e,
    (es.filter fun e =>
      e.user_email == email && e.checked_in_at == none).length)

/-- Modelled from the spec: the check-in reply — the count of newly
checked-in enrollments, "or a nothing-to-check-in reply if zero". -/
def checkInReply (n : Nat) : String :=
  if n = 0 then "目前沒有可簽到的課程" else "已簽到 " ++ toString n ++ " 筆"

/-- C6: the first check-in stamps exactly the null-timestamp enrollments of
the user and reports their count; a second check-in changes nothing and
reports zero. -/
theorem checkIn_idempotent (now now2 : Nat) (email : String)
    (es : List EnrollmentB) :
    (checkIn now email es).2 =
      (es.filter fun e =>
        e.user_email == email && e.checked_in_at == none).length ∧
    (∀ e ∈ es, e.user_email = email → e.checked_in_at = none →
      (⟨e.id, e.user_email, e.course_id, some now⟩ : EnrollmentB) ∈
        (checkIn now email es).1) ∧
    (checkIn now2 email (checkIn now email es).1).1 =
      (checkIn now email es).1 ∧
    (checkIn now2 email (checkIn now email es).1).2 = 0 ∧
    checkInReply (checkIn now2 email (checkIn now email es).1).2 =
      checkInReply 0 := by
  have hmap2 : (checkIn now2 email (checkIn now email es).1).1 =
      (checkIn now email es).1 := by
    show List.map _ (List.map _ es) = List.map _ es
    rw [List.map_map]
    apply List.map_congr_left
    intro e he
    simp only [Function.comp]
    by_cases h1 : e.user_email = email ∧ e.checked_in_at = none <;>
      simp [h1]
  have hzero : (checkIn now2 email (checkIn now email es).1).2 = 0 := by
    show (List.filter _ (List.map _ es)).length = 0
    rw [List.length_eq_zero, List.filter_eq_nil_iff]
    intro a ha
    obtain ⟨e, he, rfl⟩ := List.mem_map.mp ha
    by_cases h1 : e.user_email = email ∧ e.checked_in_at = none
    · simp [h1]
    · rw [if_neg h1]
      simp only [Bool.and_eq_true, beq_iff_eq]
      intro hc
      exact h1 ⟨hc.1, hc.2⟩
  refine ⟨rfl, ?_, hmap2, hzero, by rw [hzero]⟩
  intro e he hmail hnull
  unfold checkIn
  simp only []
  refine List.mem_map.mpr ⟨e, he, ?_⟩
  rw [if_pos ⟨hmail, hnull⟩]

/-! ## Witnesses -/

theorem bindProfile_alreadyBound_witness :
    handle_message
      ⟨[⟨1, some "L", "a@b.c", some "Amy", none, "wait_name"⟩], [], []⟩
      "L" "綁定資料" 0 =
      some (⟨[⟨1, some "L", "a@b.c", some "Amy", none, "wait_name"⟩], [],
        []⟩, ⟨alreadyBoundReply, []⟩) :=
  bindProfile_alreadyBound
    ⟨[⟨1, some "L", "a@b.c", some "Amy", none, "wait_name"⟩], [], []⟩
    "L" 0 ⟨1, some "L", "a@b.c", some "Amy", none, "wait_name"⟩ rfl
    (by decide) (by decide)

theorem waitEmail_duplicate_guard_witness :
    handle_message
      ⟨[⟨1, some "L", "L@temp", none, none, "wait_email"⟩,
        ⟨2, none, "a@b.c", none, none, "free"⟩], [], []⟩
      "L" "a@b.c" 0 =
      some (⟨[⟨1, some "L", "L@temp", none, none, "wait_email"⟩,
        ⟨2, none, "a@b.c", none, none, "free"⟩], [], []⟩,
        ⟨emailTakenReply, []⟩) :=
  (waitEmail_duplicate_guard
    ⟨[⟨1, some "L", "L@temp", none, none, "wait_email"⟩,
      ⟨2, none, "a@b.c", none, none, "free"⟩], [], []⟩
    "L" "a@b.c" 0 ⟨1, some "L", "L@temp", none, none, "wait_email"⟩ rfl rfl
    (by decide) (by decide) (by decide)).1
    ⟨2, none, "a@b.c", none, none, "free"⟩ rfl (by decide)

theorem checkIdentity_optOut_witness :
    handle_message
      ⟨[⟨1, some "L", "L@temp", none, none, "check_identity"⟩], [], []⟩
      "L" "我只是路過的" 0 =
      some (⟨[], [], []⟩, ⟨optOutReply, []⟩) ∧
    handle_message ⟨[], [], []⟩ "L" "綁定資料" 0 =
      some (⟨[⟨0, some "L", "L@temp", none, none, "check_identity"⟩], [],
        []⟩, ⟨welcomePrompt, identityButtons⟩) := by
  have h := checkIdentity_optOut
    ⟨[⟨1, some "L", "L@temp", none, none, "check_identity"⟩], [], []⟩
    "L" 0 ⟨1, some "L", "L@temp", none, none, "check_identity"⟩ rfl rfl
    (by decide) (by decide)
  exact ⟨h.1, h.2.2.2⟩

theorem binding_flow_witness :
    ∃ r1 r2 r3 r4,
      handle_message ⟨[], [], []⟩ "L" "綁定資料" 0 =
        some (⟨[⟨0, some "L", "L@temp", none, none, "check_identity"⟩],
          [], []⟩, r1) ∧
      handle_message
        ⟨[⟨0, some "L", "L@temp", none, none, "check_identity"⟩], [], []⟩
        "L" "是的，我是" 0 =
        some (⟨[⟨0, some "L", "L@temp", none, none, "wait_email"⟩], [],
          []⟩, r2) ∧
      handle_message
        ⟨[⟨0, some "L", "L@temp", none, none, "wait_email"⟩], [], []⟩
        "L" "a@b.c" 0 =
        some (⟨[⟨0, some "L", "a@b.c", none, none, "wait_name"⟩], [], []⟩,
          r3) ∧
      handle_message
        ⟨[⟨0, some "L", "a@b.c", none, none, "wait_name"⟩], [], []⟩
        "L" "Amy" 0 =
        some (⟨[⟨0, some "L", "a@b.c", some "Amy", none, "wait_dept"⟩],
          [], []⟩, r4) ∧
      handle_message
        ⟨[⟨0, some "L", "a@b.c", some "Amy", none, "wait_dept"⟩], [], []⟩
        "L" "Nursing" 0 =
        some (⟨[⟨0, some "L", "a@b.c", some "Amy", some "Nursing",
          "free"⟩], [], []⟩, ⟨bindDoneReply, []⟩) :=
  binding_flow ⟨[], [], []⟩ "L" "a@b.c" "Amy" "Nursing" 0 rfl (by decide)
    (by decide) (by simp) (by decide) (by decide) (by decide) (by decide)

theorem handle_message_atMostOneUserMutation_witness :
    atMostOneUserMutation ⟨[], [], []⟩ ⟨[], [], []⟩ :=
  handle_message_atMostOneUserMutation ⟨[], [], []⟩ "L" "hello" 0
    ⟨[], [], []⟩ ⟨pleaseBindReply, []⟩ rfl

theorem handle_message_total_witness :
    (handle_message ⟨[], [⟨1, "C", none, none, none⟩], [⟨1, "a@b.c", 1⟩]⟩
      "L" "" 0).isSome :=
  handle_message_total ⟨[], [⟨1, "C", none, none, none⟩],
    [⟨1, "a@b.c", 1⟩]⟩ "L" "" 0 (by decide) (by decide)

theorem email_uniqueness_preserved_witness :
    (((⟨[⟨0, some "L", "L@temp", none, none, "check_identity"⟩], [],
      []⟩ : Store)).users.map UserR.email).Nodup :=
  email_uniqueness_preserved ⟨[], [], []⟩ "L" "綁定資料" 0
    ⟨[⟨0, some "L", "L@temp", none, none, "check_identity"⟩], [], []⟩
    ⟨welcomePrompt, identityButtons⟩ rfl (by decide) (by decide) (by simp)

unseal List.merge List.mergeSort in
theorem recentCourses_correct_witness :
    ∃ lines,
      (∀ c, c ∈ upcomingCourses ⟨[], [⟨1, "W2", some 2, some 600, none⟩,
          ⟨2, "W0", some 0, some 540, some 100⟩,
          ⟨3, "Wn", none, none, none⟩], []⟩ 50 ↔
        c ∈ (⟨[], [⟨1, "W2", some 2, some 600, none⟩,
          ⟨2, "W0", some 0, some 540, some 100⟩,
          ⟨3, "Wn", none, none, none⟩], []⟩ : Store).courses ∧
        (c.end_date = none ∨ ∃ d, c.end_date = some d ∧ 50 ≤ d)) ∧
      (upcomingCourses ⟨[], [⟨1, "W2", some 2, some 600, none⟩,
          ⟨2, "W0", some 0, some 540, some 100⟩,
          ⟨3, "Wn", none, none, none⟩], []⟩ 50).Pairwise
        (fun a b => courseLe a b = true) ∧
      optionMapList renderCourseLine
        (upcomingCourses ⟨[], [⟨1, "W2", some 2, some 600, none⟩,
          ⟨2, "W0", some 0, some 540, some 100⟩,
          ⟨3, "Wn", none, none, none⟩], []⟩ 50) = some lines ∧
      (∀ c ∈ upcomingCourses ⟨[], [⟨1, "W2", some 2, some 600, none⟩,
          ⟨2, "W0", some 0, some 540, some 100⟩,
          ⟨3, "Wn", none, none, none⟩], []⟩ 50, renderCourseLine c =
        some ("🔹 " ++ c.course_name ++ "\n   (週" ++
          (match c.weekday with
           | none => "待定"
           | some w => days_map.getD w "") ++ " " ++
          timeLabel c.start_time ++ ")\n" ++
          (match c.end_date with
           | none => ""
           | some e => "   ~ 至 " ++ toString e ++ " 截止\n"))) ∧
      handle_message ⟨[], [⟨1, "W2", some 2, some 600, none⟩,
          ⟨2, "W0", some 0, some 540, some 100⟩,
          ⟨3, "Wn", none, none, none⟩], []⟩ "L" "近期課程" 50 =
        some (⟨[], [⟨1, "W2", some 2, some 600, none⟩,
          ⟨2, "W0", some 0, some 540, some 100⟩,
          ⟨3, "Wn", none, none, none⟩], []⟩,
          ⟨"📋 近期課程一覽：\n----------------------\n" ++
            String.join lines ++ "\n📅 查看完整行事曆：\n" ++ calendarLink,
          []⟩) :=
  recentCourses_correct ⟨[], [⟨1, "W2", some 2, some 600, none⟩,
      ⟨2, "W0", some 0, some 540, some 100⟩,
      ⟨3, "Wn", none, none, none⟩], []⟩ "L" 50 (by decide) (Or.inl rfl)
    (by decide)

end LineBot
